import Mathlib

/-!
Verification of AsyncValueTreeSynchroniser
(src/AsynchronousValueTreeSynchroniser.h).

The class under verification is a template class parameterised by a fixed
CAPACITY.  It overrides ValueTreeSynchroniser.stateChanged to push each
encoded change record into a lock free single producer / single consumer
fifo, and exposes updateShadowValueTree, which drains the fifo on the
consumer side and applies each record to a private shadow ValueTree; an
overflow flag triggers a discard and full snapshot resync instead.

The fifo (juce AbstractFifo), the tree type (juce ValueTree) and the
serialisation machinery (juce ValueTreeSynchroniser: applyChange,
sendFullSyncCallback, the mutation listener) are external collaborators
whose code is not part of this repository; they are modelled here from the
specification of their interface (sections 3, 4.1, 4.4 and 6 of the spec),
with monotonic Nat cursors so that the cursor invariant is directly
statable.  Everything in AsynchronousValueTreeSynchroniser.h itself is
translated line by line.
-/

namespace JuceBits

/-- Modelled from the spec: a minimal instantiation of the external keyed
tree collaborator (juce ValueTree, out of scope of the repository),
sufficient for the mutations named by the spec scenarios: integer valued
named properties and an ordered list of named children. -/
structure VTree where
  props : List (String × Int)
  children : List String
deriving DecidableEq, Repr

/-- The default constructed tree. -/
def vtEmpty : VTree := ⟨[], []⟩

/-- Modelled from the spec: one atomic mutation of the source tree, of the
kinds the spec scenarios use (a property set, a child insertion, a child
removal). -/
inductive Mutation where
  | setProp (name : String) (value : Int)
  | addChild (name : String)
  | removeChild (name : String)
deriving DecidableEq, Repr

/-- Set a property in a property list: update the existing binding in
place if present, otherwise append it. -/
def setPropList : List (String × Int) → String → Int → List (String × Int)
  | [], n, v => [(n, v)]
  | (k, w) :: rest, n, v =>
      if k = n then (n, v) :: rest else (k, w) :: setPropList rest n v

/-- Modelled from the spec: apply one mutation to a tree (the external
applyDiff semantics for each mutation kind). -/
def applyMutation : Mutation → VTree → VTree
  | .setProp n v, t => { t with props := setPropList t.props n v }
  | .addChild n, t => { t with children := t.children ++ [n] }
  | .removeChild n, t => { t with children := t.children.erase n }

/-- Modelled from the spec: the contents of one MemoryBlock slot.  A block
is either the default constructed empty block, the serialisation of one
incremental mutation, or a full snapshot serialisation of a whole tree (as
produced by sendFullSyncCallback). -/
inductive DiffRecord where
  | empty
  | delta (m : Mutation)
  | full (t : VTree)
deriving DecidableEq, Repr

/-- Modelled from the spec: ValueTreeSynchroniser.applyChange applied to a
decoded record: an incremental record patches the target tree, a full
snapshot record replaces it, and the empty block changes nothing. -/
def applyChange (t : VTree) (b : DiffRecord) : VTree :=
  match b with
  | .empty => t
  | .delta m => applyMutation m t
  | .full s => s

/-- The state of one AsyncValueTreeSynchroniser instance: the two fifo
cursors (modelled from the spec as monotonically advancing counters whose
difference is the ready count and whose slot index is the cursor modulo
the capacity), the slot array arrayOfMemoryBlocks, the overflow flag
hasOverrun, the consumer owned shadowValueTree, and the producer owned
source tree observed by the synchroniser. -/
structure SyncState where
  writeCursor : Nat
  readCursor : Nat
  arrayOfMemoryBlocks : Nat → DiffRecord
  hasOverrun : Bool
  shadowValueTree : VTree
  sourceTree : VTree

/-- Modelled from the spec: number of committed, unread records in the
fifo (AbstractFifo.getNumReady), the cursor difference. -/
def getNumReady (s : SyncState) : Nat := s.writeCursor - s.readCursor

/-- Modelled from the spec: number of free slots in the fifo
(AbstractFifo.getFreeSpace), the capacity minus the ready count. -/
def getFreeSpace (C : Nat) (s : SyncState) : Nat := C - getNumReady s

/-- The two index ranges returned by a fifo reservation: start and size of
the first span, start and size of the second (wrap around) span. -/
structure Spans where
  start1 : Nat
  size1 : Nat
  start2 : Nat
  size2 : Nat
deriving DecidableEq, Repr

/-- Modelled from the spec: AbstractFifo.prepareToWrite.  Reserve up to n
slots for writing: however much space is actually free, split at the wrap
boundary, both spans empty when there is no space. -/
def prepareToWrite (C n : Nat) (s : SyncState) : Spans :=
  let m := min n (getFreeSpace C s)
  if m = 0 then ⟨0, 0, 0, 0⟩
  else
    let st1 := s.writeCursor % C
    let sz1 := min (C - st1) m
    ⟨st1, sz1, 0, m - sz1⟩

/-- Modelled from the spec: AbstractFifo.finishedWrite, committing n
written slots by advancing the write cursor. -/
def finishedWrite (s : SyncState) (n : Nat) : SyncState :=
  { s with writeCursor := s.writeCursor + n }

/-- Modelled from the spec: AbstractFifo.prepareToRead, the analogous
reservation over ready slots. -/
def prepareToRead (C n : Nat) (s : SyncState) : Spans :=
  let m := min n (getNumReady s)
  if m = 0 then ⟨0, 0, 0, 0⟩
  else
    let st1 := s.readCursor % C
    let sz1 := min (C - st1) m
    ⟨st1, sz1, 0, m - sz1⟩

/-- Modelled from the spec: AbstractFifo.finishedRead, freeing n read
slots by advancing the read cursor. -/
def finishedRead (s : SyncState) (n : Nat) : SyncState :=
  { s with readCursor := s.readCursor + n }

/-- Modelled from the spec: AbstractFifo.reset discards all queued unread
entries by forcing the read cursor to the write cursor. -/
def fifoReset (s : SyncState) : SyncState :=
  { s with readCursor := s.writeCursor }

/-- Translation of AsyncValueTreeSynchroniser.stateChanged (the override
called with each encoded change): if the fifo has no free slot, set the
overflow flag and drop the record; otherwise reserve one slot, copy the
record into whichever span is non empty, and commit the write. -/
def stateChanged (C : Nat) (encodedChange : DiffRecord) (s : SyncState) : SyncState :=
  if getFreeSpace C s < 1 then
    { s with hasOverrun := true }
  else
    let sp := prepareToWrite C 1 s
    let blocks :=
      if 0 < sp.size1 then
        Function.update s.arrayOfMemoryBlocks sp.start1 encodedChange
      else if 0 < sp.size2 then
        Function.update s.arrayOfMemoryBlocks sp.start2 encodedChange
      else s.arrayOfMemoryBlocks
    finishedWrite { s with arrayOfMemoryBlocks := blocks } (sp.size1 + sp.size2)

/-- The while loop of updateShadowValueTree: while the fifo has a ready
record, reserve one, apply the block of whichever span is non empty to the
shadow tree, and finish the read.  Whenever the ready count is positive
the two reserved span sizes sum to exactly one, so each pass consumes
exactly one record and the loop runs exactly getNumReady times; the fuel
argument, instantiated with the ready count at entry, makes that
structural. -/
def drainLoop (C : Nat) : Nat → SyncState → SyncState
  | 0, s => s
  | fuel + 1, s =>
    if 0 < getNumReady s then
      let sp := prepareToRead C 1 s
      let s1 :=
        if 0 < sp.size1 then
          { s with shadowValueTree :=
              applyChange s.shadowValueTree (s.arrayOfMemoryBlocks sp.start1) }
        else if 0 < sp.size2 then
          { s with shadowValueTree :=
              applyChange s.shadowValueTree (s.arrayOfMemoryBlocks sp.start2) }
        else s
      drainLoop C fuel (finishedRead s1 (sp.size1 + sp.size2))
    else s

/-- Translation of AsyncValueTreeSynchroniser.updateShadowValueTree: if
the overflow flag is set, reset the fifo, clear the flag and invoke
sendFullSyncCallback, which re-enters stateChanged with a full snapshot of
the source tree; then record whether the ready count is non zero (the int
to bool conversion of the source), drain the fifo, and return that
record. -/
def updateShadowValueTree (C : Nat) (s : SyncState) : Bool × SyncState :=
  let s0 :=
    if s.hasOverrun then
      stateChanged C (DiffRecord.full s.sourceTree)
        { fifoReset s with hasOverrun := false }
    else s
  let hasUpdatedSomething : Bool := decide (0 < getNumReady s0)
  (hasUpdatedSomething, drainLoop C (getNumReady s0) s0)

/-- Translation of getShaddowValueTree (name as in the source). -/
def getShaddowValueTree (s : SyncState) : VTree := s.shadowValueTree

/-- Modelled from the spec: one producer step of the external notification
machinery.  A mutation is applied to the source tree and the synchroniser
is synchronously notified with the serialised incremental record. -/
def producerStep (C : Nat) (m : Mutation) (s : SyncState) : SyncState :=
  stateChanged C (DiffRecord.delta m)
    { s with sourceTree := applyMutation m s.sourceTree }

/-- A whole burst of producer mutations, delivered in order with no
intervening consumer poll. -/
def applyProducer (C : Nat) (s : SyncState) (ms : List Mutation) : SyncState :=
  ms.foldl (fun st m => producerStep C m st) s

/-- The state at construction: both cursors zero, default constructed
slot blocks, overflow flag clear, default constructed shadow tree, and the
observed source tree. -/
def initState (src : VTree) : SyncState :=
  { writeCursor := 0
    readCursor := 0
    arrayOfMemoryBlocks := fun _ => DiffRecord.empty
    hasOverrun := false
    shadowValueTree := vtEmpty
    sourceTree := src }

/-- The states reachable from construction by any interleaving of
producer mutations and consumer polls. -/
inductive Reachable (C : Nat) : SyncState → Prop where
  | init (src : VTree) : Reachable C (initState src)
  | producer {s : SyncState} (m : Mutation) :
      Reachable C s → Reachable C (producerStep C m s)
  | consumer {s : SyncState} :
      Reachable C s → Reachable C ((updateShadowValueTree C s).snd)

/-- The ring cursor invariant: the read cursor never passes the write
cursor, and at most C committed records are outstanding. -/
abbrev wfRing (C : Nat) (s : SyncState) : Prop :=
  s.readCursor ≤ s.writeCursor ∧ s.writeCursor ≤ s.readCursor + C

/-- The queued, not yet consumed records, oldest first: the slot contents
at the ready cursor positions. -/
def queueContents (C : Nat) (s : SyncState) : List DiffRecord :=
  (List.range (getNumReady s)).map
    (fun i => s.arrayOfMemoryBlocks ((s.readCursor + i) % C))

/-! ## Basic facts about the fifo reservations -/

theorem getFreeSpace_le (C : Nat) (s : SyncState) : getFreeSpace C s ≤ C :=
  Nat.sub_le _ _

theorem prepareToWrite_of_space {C : Nat} {s : SyncState}
    (h : 1 ≤ getFreeSpace C s) :
    prepareToWrite C 1 s = ⟨s.writeCursor % C, 1, 0, 0⟩ := by
  have hC : 0 < C := by
    have h2 := getFreeSpace_le C s
    omega
  have hm : min 1 (getFreeSpace C s) = 1 := by omega
  have hst : s.writeCursor % C < C := Nat.mod_lt _ hC
  have hsz : min (C - s.writeCursor % C) 1 = 1 := by omega
  simp [prepareToWrite, hm, hsz]

theorem prepareToRead_of_ready {C : Nat} {s : SyncState} (hC : 0 < C)
    (h : 0 < getNumReady s) :
    prepareToRead C 1 s = ⟨s.readCursor % C, 1, 0, 0⟩ := by
  have hm : min 1 (getNumReady s) = 1 := by omega
  have hst : s.readCursor % C < C := Nat.mod_lt _ hC
  have hsz : min (C - s.readCursor % C) 1 = 1 := by omega
  simp [prepareToRead, hm, hsz]

theorem prepareToWrite_sizes (C : Nat) (s : SyncState) :
    (prepareToWrite C 1 s).size1 + (prepareToWrite C 1 s).size2
      = min 1 (getFreeSpace C s) := by
  simp only [prepareToWrite]
  split
  · simp only [Spans.size1, Spans.size2]
    omega
  · simp only [Spans.size1, Spans.size2]
    omega

theorem prepareToRead_sizes (C : Nat) (s : SyncState) :
    (prepareToRead C 1 s).size1 + (prepareToRead C 1 s).size2
      = min 1 (getNumReady s) := by
  simp only [prepareToRead]
  split
  · simp only [Spans.size1, Spans.size2]
    omega
  · simp only [Spans.size1, Spans.size2]
    omega

/-! ## Characterisations of stateChanged -/

theorem stateChanged_of_full {C : Nat} {s : SyncState} (r : DiffRecord)
    (h : getFreeSpace C s < 1) :
    stateChanged C r s = { s with hasOverrun := true } := by
  unfold stateChanged
  rw [if_pos h]

theorem stateChanged_of_space {C : Nat} {s : SyncState} (r : DiffRecord)
    (h : 1 ≤ getFreeSpace C s) :
    stateChanged C r s =
      { s with
          arrayOfMemoryBlocks :=
            Function.update s.arrayOfMemoryBlocks (s.writeCursor % C) r
          writeCursor := s.writeCursor + 1 } := by
  unfold stateChanged
  rw [if_neg (by omega), prepareToWrite_of_space h]
  simp [finishedWrite]

theorem wfRing_stateChanged {C : Nat} {s : SyncState} (r : DiffRecord)
    (hwf : wfRing C s) : wfRing C (stateChanged C r s) := by
  obtain ⟨h1, h2⟩ := hwf
  by_cases h : getFreeSpace C s < 1
  · rw [stateChanged_of_full r h]
    exact ⟨h1, h2⟩
  · rw [stateChanged_of_space r (by omega)]
    have h3 : getNumReady s < C := by
      simp only [getFreeSpace] at h
      omega
    simp only [getNumReady] at h3
    show s.readCursor ≤ s.writeCursor + 1 ∧ s.writeCursor + 1 ≤ s.readCursor + C
    omega

/-! ## The queue abstraction -/

theorem queueContents_of_empty {C : Nat} {s : SyncState}
    (h : getNumReady s = 0) : queueContents C s = [] := by
  simp [queueContents, h]

theorem mod_window_ne {C rd i n : Nat} (hi : i < n) (hn : n < C) :
    (rd + i) % C ≠ (rd + n) % C := by
  intro hEq
  have h2 : i ≡ n [MOD C] := Nat.ModEq.add_left_cancel' rd hEq
  have h3 : i % C = n % C := h2
  rw [Nat.mod_eq_of_lt (lt_trans hi hn), Nat.mod_eq_of_lt hn] at h3
  omega

theorem queueContents_enqueue {C : Nat} {s : SyncState} (r : DiffRecord)
    (hwf : wfRing C s) (h : 1 ≤ getFreeSpace C s) :
    queueContents C (stateChanged C r s) = queueContents C s ++ [r] := by
  obtain ⟨hrw, hwc⟩ := hwf
  have hlt : getNumReady s < C := by
    simp only [getFreeSpace] at h
    omega
  rw [stateChanged_of_space r h]
  simp only [queueContents, getNumReady]
  have hn : s.writeCursor + 1 - s.readCursor = (s.writeCursor - s.readCursor) + 1 := by
    omega
  rw [hn, List.range_succ, List.map_append]
  congr 1
  · apply List.map_congr_left
    intro i hi
    have hi2 : i < s.writeCursor - s.readCursor := List.mem_range.mp hi
    have hne : (s.readCursor + i) % C ≠ s.writeCursor % C := by
      have hw : s.writeCursor = s.readCursor + (s.writeCursor - s.readCursor) := by
        omega
      rw [hw]
      exact mod_window_ne hi2 (by simpa only [getNumReady] using hlt)
    simp [Function.update_noteq hne]
  · have hw : s.readCursor + (s.writeCursor - s.readCursor) = s.writeCursor := by
      omega
    rw [List.map_cons, List.map_nil, hw, Function.update_same]

/-! ## Characterisations of the drain loop -/

theorem drainLoop_succ_of_ready {C fuel : Nat} {s : SyncState}
    (h : 0 < getNumReady s) (hC : 0 < C) :
    drainLoop C (fuel + 1) s =
      drainLoop C fuel
        { s with readCursor := s.readCursor + 1
                 shadowValueTree :=
                   applyChange s.shadowValueTree
                     (s.arrayOfMemoryBlocks (s.readCursor % C)) } := by
  simp only [drainLoop]
  rw [if_pos h, prepareToRead_of_ready hC h]
  simp [finishedRead]

theorem drainLoop_succ_zeroC {fuel : Nat} {s : SyncState}
    (h : 0 < getNumReady s) :
    drainLoop 0 (fuel + 1) s =
      drainLoop 0 fuel
        { s with readCursor := s.readCursor + 1
                 shadowValueTree :=
                   applyChange s.shadowValueTree (s.arrayOfMemoryBlocks 0) } := by
  have hm : min 1 (getNumReady s) = 1 := by omega
  have hp : prepareToRead 0 1 s = ⟨s.readCursor % 0, 0, 0, 1⟩ := by
    simp [prepareToRead, hm]
  simp only [drainLoop]
  rw [if_pos h, hp]
  simp [finishedRead]

theorem drainLoop_ready (C fuel : Nat) : ∀ s : SyncState,
    getNumReady (drainLoop C fuel s) = getNumReady s - fuel := by
  induction fuel with
  | zero =>
    intro s
    simp [drainLoop]
  | succ n ih =>
    intro s
    by_cases h : 0 < getNumReady s
    · rcases Nat.eq_zero_or_pos C with hC | hC
      · subst hC
        rw [drainLoop_succ_zeroC h, ih]
        simp only [getNumReady] at h ⊢
        omega
      · rw [drainLoop_succ_of_ready h hC, ih]
        simp only [getNumReady] at h ⊢
        omega
    · simp only [drainLoop, if_neg h]
      simp only [getNumReady] at h ⊢
      omega

theorem drainLoop_spec (C : Nat) : ∀ (fuel : Nat) (s : SyncState),
    fuel = getNumReady s → wfRing C s →
    drainLoop C fuel s =
      { s with readCursor := s.writeCursor
               shadowValueTree :=
                 (queueContents C s).foldl applyChange s.shadowValueTree } := by
  intro fuel
  induction fuel with
  | zero =>
    intro s h0 hwf
    have hr : s.readCursor = s.writeCursor := by
      obtain ⟨h1, h2⟩ := hwf
      simp only [getNumReady] at h0
      omega
    rw [queueContents_of_empty h0.symm]
    simp only [drainLoop, List.foldl]
    obtain ⟨w, rd, blocks, ov, sh, src⟩ := s
    simp only at hr
    subst hr
    rfl
  | succ n ih =>
    intro s h0 hwf
    obtain ⟨h1, h2⟩ := hwf
    have h : 0 < getNumReady s := by omega
    have hC : 0 < C := by
      simp only [getNumReady] at h0 h
      omega
    rw [drainLoop_succ_of_ready h hC]
    have hready2 : n = getNumReady
        { s with readCursor := s.readCursor + 1
                 shadowValueTree :=
                   applyChange s.shadowValueTree
                     (s.arrayOfMemoryBlocks (s.readCursor % C)) } := by
      show n = s.writeCursor - (s.readCursor + 1)
      simp only [getNumReady] at h0
      omega
    have hwf2 : wfRing C
        { s with readCursor := s.readCursor + 1
                 shadowValueTree :=
                   applyChange s.shadowValueTree
                     (s.arrayOfMemoryBlocks (s.readCursor % C)) } := by
      refine ⟨?_, ?_⟩
      · show s.readCursor + 1 ≤ s.writeCursor
        simp only [getNumReady] at h
        omega
      · show s.writeCursor ≤ s.readCursor + 1 + C
        omega
    rw [ih _ hready2 hwf2]
    have hq : queueContents C s =
        s.arrayOfMemoryBlocks (s.readCursor % C) ::
          (List.range (s.writeCursor - (s.readCursor + 1))).map
            (fun i => s.arrayOfMemoryBlocks ((s.readCursor + 1 + i) % C)) := by
      simp only [queueContents, getNumReady]
      have hn : s.writeCursor - s.readCursor
          = (s.writeCursor - (s.readCursor + 1)) + 1 := by
        simp only [getNumReady] at h
        omega
      rw [hn, List.range_succ_eq_map, List.map_cons, List.map_map]
      simp only [List.cons.injEq]
      refine ⟨by simp, ?_⟩
      apply List.map_congr_left
      intro a ha
      simp only [Function.comp_apply, Nat.succ_eq_add_one]
      have h4 : s.readCursor + (a + 1) = s.readCursor + 1 + a := by omega
      rw [h4]
    rw [hq]
    simp [queueContents, getNumReady, List.foldl]

theorem drainLoop_hasOverrun (C : Nat) : ∀ (fuel : Nat) (s : SyncState),
    (drainLoop C fuel s).hasOverrun = s.hasOverrun := by
  intro fuel
  induction fuel with
  | zero =>
    intro s
    rfl
  | succ n ih =>
    intro s
    by_cases h : 0 < getNumReady s
    · rcases Nat.eq_zero_or_pos C with hC | hC
      · subst hC
        rw [drainLoop_succ_zeroC h, ih]
      · rw [drainLoop_succ_of_ready h hC, ih]
    · simp only [drainLoop, if_neg h]

/-! ## Characterisations of updateShadowValueTree -/

theorem update_of_clean {C : Nat} {s : SyncState} (h : s.hasOverrun = false) :
    updateShadowValueTree C s =
      (decide (0 < getNumReady s), drainLoop C (getNumReady s) s) := by
  simp [updateShadowValueTree, h]

theorem update_of_overrun {C : Nat} {s : SyncState} (hC : 0 < C)
    (h : s.hasOverrun = true) :
    updateShadowValueTree C s =
      (true,
        { s with
            writeCursor := s.writeCursor + 1
            readCursor := s.writeCursor + 1
            arrayOfMemoryBlocks :=
              Function.update s.arrayOfMemoryBlocks (s.writeCursor % C)
                (DiffRecord.full s.sourceTree)
            hasOverrun := false
            shadowValueTree := s.sourceTree }) := by
  have hfree : 1 ≤ getFreeSpace C { fifoReset s with hasOverrun := false } := by
    simp [getFreeSpace, getNumReady, fifoReset]
    omega
  have hs0 : stateChanged C (DiffRecord.full s.sourceTree)
      { fifoReset s with hasOverrun := false } =
      { s with
          writeCursor := s.writeCursor + 1
          readCursor := s.writeCursor
          arrayOfMemoryBlocks :=
            Function.update s.arrayOfMemoryBlocks (s.writeCursor % C)
              (DiffRecord.full s.sourceTree)
          hasOverrun := false } := by
    rw [stateChanged_of_space _ hfree]
    simp [fifoReset]
  simp only [updateShadowValueTree, if_pos h, hs0]
  have hready : getNumReady
      { s with
          writeCursor := s.writeCursor + 1
          readCursor := s.writeCursor
          arrayOfMemoryBlocks :=
            Function.update s.arrayOfMemoryBlocks (s.writeCursor % C)
              (DiffRecord.full s.sourceTree)
          hasOverrun := false } = 1 := by
    simp [getNumReady]
  rw [hready]
  have hdrain := drainLoop_spec C 1
    { s with
        writeCursor := s.writeCursor + 1
        readCursor := s.writeCursor
        arrayOfMemoryBlocks :=
          Function.update s.arrayOfMemoryBlocks (s.writeCursor % C)
            (DiffRecord.full s.sourceTree)
        hasOverrun := false }
    hready.symm ⟨by simp, by simp; omega⟩
  rw [hdrain]
  have hqc : queueContents C
      { s with
          writeCursor := s.writeCursor + 1
          readCursor := s.writeCursor
          arrayOfMemoryBlocks :=
            Function.update s.arrayOfMemoryBlocks (s.writeCursor % C)
              (DiffRecord.full s.sourceTree)
          hasOverrun := false } = [DiffRecord.full s.sourceTree] := by
    simp [queueContents, getNumReady, List.range_succ]
  rw [hqc]
  simp [applyChange, List.foldl]

theorem update_of_overrun_zeroC {s : SyncState} (h : s.hasOverrun = true) :
    updateShadowValueTree 0 s =
      (false, { s with readCursor := s.writeCursor, hasOverrun := true }) := by
  have hfull : getFreeSpace 0 { fifoReset s with hasOverrun := false } < 1 := by
    simp [getFreeSpace]
  have hs0 : stateChanged 0 (DiffRecord.full s.sourceTree)
      { fifoReset s with hasOverrun := false } =
      { s with readCursor := s.writeCursor, hasOverrun := true } := by
    rw [stateChanged_of_full _ hfull]
    simp [fifoReset]
  simp only [updateShadowValueTree, if_pos h, hs0]
  have hready : getNumReady
      { s with readCursor := s.writeCursor, hasOverrun := true } = 0 := by
    simp [getNumReady]
  rw [hready]
  simp [drainLoop]

theorem wfRing_update {C : Nat} {s : SyncState} (hwf : wfRing C s) :
    wfRing C ((updateShadowValueTree C s).snd) := by
  cases hov : s.hasOverrun with
  | false =>
    rw [update_of_clean hov, drainLoop_spec C _ s rfl hwf]
    exact ⟨Nat.le_refl _, Nat.le_add_right _ _⟩
  | true =>
    rcases Nat.eq_zero_or_pos C with hC | hC
    · subst hC
      rw [update_of_overrun_zeroC hov]
      exact ⟨Nat.le_refl _, Nat.le_add_right _ _⟩
    · rw [update_of_overrun hC hov]
      exact ⟨Nat.le_refl _, Nat.le_add_right _ _⟩

theorem reachable_wf {C : Nat} {s : SyncState} (h : Reachable C s) :
    wfRing C s := by
  induction h with
  | init src =>
    refine ⟨Nat.le_refl 0, ?_⟩
    show (0 : Nat) ≤ 0 + C
    omega
  | producer m hr ih => exact wfRing_stateChanged _ ih
  | consumer hr ih => exact wfRing_update ih

/-! ## The producer burst -/

theorem applyProducer_spec (C : Nat) : ∀ (ms : List Mutation) (s : SyncState),
    wfRing C s → s.hasOverrun = false → getNumReady s + ms.length ≤ C →
    wfRing C (applyProducer C s ms) ∧
    (applyProducer C s ms).hasOverrun = false ∧
    (applyProducer C s ms).readCursor = s.readCursor ∧
    (applyProducer C s ms).writeCursor = s.writeCursor + ms.length ∧
    (applyProducer C s ms).shadowValueTree = s.shadowValueTree ∧
    queueContents C (applyProducer C s ms)
      = queueContents C s ++ ms.map DiffRecord.delta := by
  intro ms
  induction ms with
  | nil =>
    intro s hwf hov hlen
    refine ⟨hwf, hov, rfl, by simp [applyProducer], rfl, by simp [applyProducer]⟩
  | cons m rest ih =>
    intro s hwf hov hlen
    obtain ⟨h1, h2⟩ := hwf
    have hfree : 1 ≤ getFreeSpace C
        { s with sourceTree := applyMutation m s.sourceTree } := by
      simp only [getFreeSpace, getNumReady, List.length_cons] at hlen ⊢
      omega
    have hstep : producerStep C m s =
        { s with
            sourceTree := applyMutation m s.sourceTree
            arrayOfMemoryBlocks :=
              Function.update s.arrayOfMemoryBlocks (s.writeCursor % C)
                (DiffRecord.delta m)
            writeCursor := s.writeCursor + 1 } := by
      unfold producerStep
      rw [stateChanged_of_space _ hfree]
    have hwfM : wfRing C { s with sourceTree := applyMutation m s.sourceTree } := by
      refine ⟨?_, ?_⟩
      · show s.readCursor ≤ s.writeCursor
        omega
      · show s.writeCursor ≤ s.readCursor + C
        omega
    have hq1 : queueContents C (producerStep C m s)
        = queueContents C s ++ [DiffRecord.delta m] := by
      unfold producerStep
      rw [queueContents_enqueue _ hwfM hfree]
      rfl
    have happ : applyProducer C s (m :: rest)
        = applyProducer C (producerStep C m s) rest := rfl
    have hlenc : getNumReady s + rest.length + 1 ≤ C := by
      simp only [List.length_cons] at hlen
      omega
    have hwf1 : wfRing C (producerStep C m s) := by
      rw [hstep]
      simp only [getNumReady] at hlenc
      refine ⟨?_, ?_⟩
      · show s.readCursor ≤ s.writeCursor + 1
        omega
      · show s.writeCursor + 1 ≤ s.readCursor + C
        omega
    have hov1 : (producerStep C m s).hasOverrun = false := by
      rw [hstep]
      exact hov
    have hlen1 : getNumReady (producerStep C m s) + rest.length ≤ C := by
      rw [hstep]
      show s.writeCursor + 1 - s.readCursor + rest.length ≤ C
      simp only [getNumReady] at hlenc
      omega
    obtain ⟨g1, g2, g3, g4, g5, g6⟩ := ih (producerStep C m s) hwf1 hov1 hlen1
    rw [happ]
    refine ⟨g1, g2, ?_, ?_, ?_, ?_⟩
    · rw [g3, hstep]
    · rw [g4, hstep]
      show s.writeCursor + 1 + rest.length = s.writeCursor + (m :: rest).length
      simp only [List.length_cons]
      omega
    · rw [g5, hstep]
    · rw [g6, hq1]
      simp

/-! ## The claims -/

/-- Claim C1: for any sequence of N mutations delivered to stateChanged on
the producer side with no overflow (N at most the capacity, starting from
a drained, clean state), a subsequent call to updateShadowValueTree
applies exactly those N records to the shadow ValueTree in FIFO order, so
the shadow tree equals a tree built by applying the same N mutations
directly in that order; no overflow occurs along the way. -/
theorem claim1_fifo_fidelity (C : Nat) (s : SyncState) (ms : List Mutation)
    (hwf : wfRing C s) (hover : s.hasOverrun = false)
    (hempty : getNumReady s = 0) (hlen : ms.length ≤ C) :
    ((updateShadowValueTree C (applyProducer C s ms)).snd).shadowValueTree
        = ms.foldl (fun t m => applyMutation m t) s.shadowValueTree ∧
    (applyProducer C s ms).hasOverrun = false := by
  obtain ⟨g1, g2, g3, g4, g5, g6⟩ :=
    applyProducer_spec C ms s hwf hover (by omega)
  refine ⟨?_, g2⟩
  have hsnd : (updateShadowValueTree C (applyProducer C s ms)).snd =
      { applyProducer C s ms with
          readCursor := (applyProducer C s ms).writeCursor
          shadowValueTree :=
            (queueContents C (applyProducer C s ms)).foldl applyChange
              (applyProducer C s ms).shadowValueTree } := by
    rw [update_of_clean g2, drainLoop_spec C _ _ rfl g1]
  rw [hsnd]
  show (queueContents C (applyProducer C s ms)).foldl applyChange
      (applyProducer C s ms).shadowValueTree
    = ms.foldl (fun t m => applyMutation m t) s.shadowValueTree
  rw [g6, queueContents_of_empty hempty, List.nil_append, g5, List.foldl_map]
  rfl

/-- Witness for C1 at capacity 1 with a single addChild mutation. -/
theorem claim1_fifo_fidelity_witness :
    ((updateShadowValueTree 1 (applyProducer 1 (initState vtEmpty)
        [Mutation.addChild "a"])).snd).shadowValueTree
      = [Mutation.addChild "a"].foldl (fun t m => applyMutation m t)
          (initState vtEmpty).shadowValueTree ∧
    (applyProducer 1 (initState vtEmpty) [Mutation.addChild "a"]).hasOverrun
      = false :=
  claim1_fifo_fidelity 1 (initState vtEmpty) [Mutation.addChild "a"]
    (by decide) rfl rfl (by decide)

/-- Claim C2: when the overflow flag is set, the next call to
updateShadowValueTree discards every queued record without applying any of
them, resyncs the shadow tree to an exact snapshot of the source tree at
call time, and leaves the overflow flag clear. -/
theorem claim2_overflow_recovery (C : Nat) (s : SyncState)
    (hC : 1 ≤ C) (hover : s.hasOverrun = true) :
    ((updateShadowValueTree C s).snd).shadowValueTree = s.sourceTree ∧
    ((updateShadowValueTree C s).snd).hasOverrun = false := by
  rw [update_of_overrun hC hover]
  exact ⟨rfl, rfl⟩

/-- Witness for C2 at capacity 1, from an overflowed state whose queue
still holds stale records. -/
theorem claim2_overflow_recovery_witness :
    ((updateShadowValueTree 1
        { initState ⟨[("k", 5)], []⟩ with hasOverrun := true }).snd).shadowValueTree
      = ({ initState ⟨[("k", 5)], []⟩ with hasOverrun := true } : SyncState).sourceTree ∧
    ((updateShadowValueTree 1
        { initState ⟨[("k", 5)], []⟩ with hasOverrun := true }).snd).hasOverrun
      = false :=
  claim2_overflow_recovery 1 _ (by decide) rfl

/-- Claim C3: with capacity 1, a single enqueue followed by an immediate
drain never sets the overflow flag; two enqueues without an intervening
drain always set it. -/
theorem claim3_capacity_boundary (s : SyncState) (m1 m2 : Mutation)
    (hwf : wfRing 1 s) (hover : s.hasOverrun = false)
    (hempty : getNumReady s = 0) :
    (producerStep 1 m1 s).hasOverrun = false ∧
    ((updateShadowValueTree 1 (producerStep 1 m1 s)).snd).hasOverrun = false ∧
    (producerStep 1 m2 (producerStep 1 m1 s)).hasOverrun = true := by
  obtain ⟨h1, h2⟩ := hwf
  simp only [getNumReady] at hempty
  have hfree : 1 ≤ getFreeSpace 1
      { s with sourceTree := applyMutation m1 s.sourceTree } := by
    show 1 ≤ 1 - (s.writeCursor - s.readCursor)
    omega
  have hstep : producerStep 1 m1 s =
      { s with
          sourceTree := applyMutation m1 s.sourceTree
          arrayOfMemoryBlocks :=
            Function.update s.arrayOfMemoryBlocks (s.writeCursor % 1)
              (DiffRecord.delta m1)
          writeCursor := s.writeCursor + 1 } := by
    unfold producerStep
    rw [stateChanged_of_space _ hfree]
  have hov1 : (producerStep 1 m1 s).hasOverrun = false := by
    rw [hstep]
    exact hover
  refine ⟨hov1, ?_, ?_⟩
  · rw [update_of_clean hov1]
    show (drainLoop 1 (getNumReady (producerStep 1 m1 s))
        (producerStep 1 m1 s)).hasOverrun = false
    rw [drainLoop_hasOverrun]
    exact hov1
  · have hfull : getFreeSpace 1
        { producerStep 1 m1 s with
            sourceTree :=
              applyMutation m2 (producerStep 1 m1 s).sourceTree } < 1 := by
      rw [hstep]
      show 1 - (s.writeCursor + 1 - s.readCursor) < 1
      omega
    show (stateChanged 1 (DiffRecord.delta m2)
        { producerStep 1 m1 s with
            sourceTree :=
              applyMutation m2 (producerStep 1 m1 s).sourceTree }).hasOverrun
      = true
    rw [stateChanged_of_full _ hfull]

/-- Witness for C3 from a freshly constructed synchroniser. -/
theorem claim3_capacity_boundary_witness :
    (producerStep 1 (Mutation.setProp "x" 1) (initState vtEmpty)).hasOverrun
        = false ∧
    ((updateShadowValueTree 1 (producerStep 1 (Mutation.setProp "x" 1)
        (initState vtEmpty))).snd).hasOverrun = false ∧
    (producerStep 1 (Mutation.setProp "x" 2)
        (producerStep 1 (Mutation.setProp "x" 1) (initState vtEmpty))).hasOverrun
      = true :=
  claim3_capacity_boundary (initState vtEmpty)
    (Mutation.setProp "x" 1) (Mutation.setProp "x" 2) (by decide) rfl rfl

/-- The mutation burst of the C4 scenario. -/
def scenarioMutations : List Mutation :=
  [Mutation.setProp "x" 1, Mutation.addChild "a",
   Mutation.setProp "x" 2, Mutation.removeChild "a"]

/-- Claim C4: with capacity 4 and the producer issuing setProp x 1,
addChild a, setProp x 2, removeChild a with no intervening poll, a single
poll leaves the shadow tree with property x equal to 2 and no child a,
and the overflow flag stays clear after every step. -/
theorem claim4_scenario :
    ((updateShadowValueTree 4 (applyProducer 4 (initState vtEmpty)
        scenarioMutations)).snd).shadowValueTree
      = ⟨[("x", 2)], []⟩ ∧
    (applyProducer 4 (initState vtEmpty)
        (scenarioMutations.take 1)).hasOverrun = false ∧
    (applyProducer 4 (initState vtEmpty)
        (scenarioMutations.take 2)).hasOverrun = false ∧
    (applyProducer 4 (initState vtEmpty)
        (scenarioMutations.take 3)).hasOverrun = false ∧
    (applyProducer 4 (initState vtEmpty) scenarioMutations).hasOverrun = false ∧
    ((updateShadowValueTree 4 (applyProducer 4 (initState vtEmpty)
        scenarioMutations)).snd).hasOverrun = false := by
  decide

/-- Claim C5: updateShadowValueTree returns true exactly when at least one
incremental record is applied (the ready count at the check is positive)
or a full snapshot resync occurs (the overflow flag was set at entry). -/
theorem claim5_return_value (C : Nat) (s : SyncState) (hC : 1 ≤ C) :
    ((updateShadowValueTree C s).fst = true ↔
      s.hasOverrun = true ∨ 0 < getNumReady s) := by
  cases hov : s.hasOverrun with
  | false =>
    rw [update_of_clean hov]
    simp
  | true =>
    rw [update_of_overrun hC hov]
    simp

/-- Witness for C5 at capacity 1 on the freshly constructed state. -/
theorem claim5_return_value_witness :
    ((updateShadowValueTree 1 (initState vtEmpty)).fst = true ↔
      (initState vtEmpty).hasOverrun = true
        ∨ 0 < getNumReady (initState vtEmpty)) :=
  claim5_return_value 1 (initState vtEmpty) (by decide)

/-- Claim C6: when stateChanged finds no free slot it sets the overflow
flag and changes nothing else (no cursor moves, no slot written, the
record is dropped, no error surfaces); with free space the producer path
leaves the flag untouched; and the consumer path of updateShadowValueTree
always leaves the flag clear. -/
theorem claim6_overflow_discipline (C : Nat) (s : SyncState) (r : DiffRecord)
    (h : getFreeSpace C s < 1) :
    stateChanged C r s = { s with hasOverrun := true } ∧
    (∀ s2 : SyncState, ∀ r2 : DiffRecord, 1 ≤ getFreeSpace C s2 →
      (stateChanged C r2 s2).hasOverrun = s2.hasOverrun) ∧
    (∀ s3 : SyncState, 1 ≤ C →
      ((updateShadowValueTree C s3).snd).hasOverrun = false) := by
  refine ⟨stateChanged_of_full r h, ?_, ?_⟩
  · intro s2 r2 h2
    rw [stateChanged_of_space r2 h2]
  · intro s3 hC
    cases hov : s3.hasOverrun with
    | false =>
      rw [update_of_clean hov]
      show (drainLoop C (getNumReady s3) s3).hasOverrun = false
      rw [drainLoop_hasOverrun]
      exact hov
    | true =>
      rw [update_of_overrun hC hov]

/-- Witness for C6 at a full capacity 1 ring. -/
theorem claim6_overflow_discipline_witness :
    stateChanged 1 (DiffRecord.delta (Mutation.addChild "b"))
        (applyProducer 1 (initState vtEmpty) [Mutation.addChild "a"])
      = { applyProducer 1 (initState vtEmpty) [Mutation.addChild "a"] with
            hasOverrun := true } :=
  (claim6_overflow_discipline 1
    (applyProducer 1 (initState vtEmpty) [Mutation.addChild "a"])
    (DiffRecord.delta (Mutation.addChild "b")) (by decide)).1

/-- Claim C7: in every state reachable by any interleaving of producer
notifications and consumer polls starting from construction, the
monotonic cursors satisfy readCursor at most writeCursor and their
difference is at most the capacity: no unread slot is ever overwritten. -/
theorem claim7_cursor_invariant (C : Nat) (s : SyncState)
    (h : Reachable C s) :
    s.readCursor ≤ s.writeCursor ∧ s.writeCursor - s.readCursor ≤ C := by
  obtain ⟨h1, h2⟩ := reachable_wf h
  exact ⟨h1, by omega⟩

/-- Witness for C7 on a state reached by one producer step. -/
theorem claim7_cursor_invariant_witness :
    (producerStep 2 (Mutation.setProp "x" 1) (initState vtEmpty)).readCursor
        ≤ (producerStep 2 (Mutation.setProp "x" 1) (initState vtEmpty)).writeCursor ∧
    (producerStep 2 (Mutation.setProp "x" 1) (initState vtEmpty)).writeCursor
        - (producerStep 2 (Mutation.setProp "x" 1) (initState vtEmpty)).readCursor
      ≤ 2 :=
  claim7_cursor_invariant 2 _
    (Reachable.producer (Mutation.setProp "x" 1) (Reachable.init vtEmpty))

/-- Claim C8: a poll with no pending records and a clear overflow flag
returns false and leaves the whole state, shadow tree, ring and flag
included, unchanged. -/
theorem claim8_idle_poll (C : Nat) (s : SyncState)
    (hover : s.hasOverrun = false) (hempty : getNumReady s = 0) :
    updateShadowValueTree C s = (false, s) := by
  rw [update_of_clean hover, hempty]
  simp [drainLoop]

/-- Witness for C8 at capacity 3 on the freshly constructed state. -/
theorem claim8_idle_poll_witness :
    updateShadowValueTree 3 (initState vtEmpty) = (false, initState vtEmpty) :=
  claim8_idle_poll 3 (initState vtEmpty) rfl rfl

/-- Claim C9: the assertions on the reserved span sizes hold: a read
reservation of one record under a positive ready count yields spans whose
sizes sum to exactly one, and a write reservation of one record yields
spans whose sizes sum to at most one, and to exactly one after the free
space check, so exactly one slot index branch runs per record. -/
theorem claim9_span_assertions (C : Nat) (s : SyncState)
    (h : 0 < getNumReady s) :
    (prepareToRead C 1 s).size1 + (prepareToRead C 1 s).size2 = 1 ∧
    (∀ s2 : SyncState,
      (prepareToWrite C 1 s2).size1 + (prepareToWrite C 1 s2).size2 ≤ 1) ∧
    (∀ s3 : SyncState, 1 ≤ getFreeSpace C s3 →
      (prepareToWrite C 1 s3).size1 + (prepareToWrite C 1 s3).size2 = 1) := by
  refine ⟨?_, ?_, ?_⟩
  · rw [prepareToRead_sizes]
    omega
  · intro s2
    rw [prepareToWrite_sizes]
    omega
  · intro s3 h3
    rw [prepareToWrite_sizes]
    omega

/-- Witness for C9 on a capacity 2 ring holding one record. -/
theorem claim9_span_assertions_witness :
    (prepareToRead 2 1 (applyProducer 2 (initState vtEmpty)
        [Mutation.addChild "a"])).size1
      + (prepareToRead 2 1 (applyProducer 2 (initState vtEmpty)
        [Mutation.addChild "a"])).size2 = 1 :=
  (claim9_span_assertions 2
    (applyProducer 2 (initState vtEmpty) [Mutation.addChild "a"])
    (by decide)).1

/-- Claim C10: with no concurrent producer activity the drain loop of
updateShadowValueTree terminates with the ring empty, and each pass under
a positive ready count consumes exactly one record, so the ready count
after running the loop with any fuel is the entry count minus the fuel. -/
theorem claim10_drain_termination (C : Nat) (s : SyncState) :
    getNumReady ((updateShadowValueTree C s).snd) = 0 ∧
    (∀ fuel : Nat, ∀ s2 : SyncState,
      getNumReady (drainLoop C fuel s2) = getNumReady s2 - fuel) := by
  refine ⟨?_, fun fuel s2 => drainLoop_ready C fuel s2⟩
  simp only [updateShadowValueTree]
  rw [drainLoop_ready]
  omega

end JuceBits
